import Mathlib

/-!
Verification development for the meditation-session audio orchestrator
(`src/app/lib/transcript.ts`, `src/app/lib/useMeditationTTS.ts`, and the
`MeditationTimer` component).  The TypeScript source is embedded shallowly:
pure functions become Lean functions on `List Char` / `Nat`, the React
hook's state becomes an explicit record, and the event-driven behaviour
becomes a small-step transition relation whose atomic steps are the blocks
of code between the suspension points (clock tick, fetch resolution,
audio-element events, pause / resume).
-/

namespace Meditation

/-! ## Transcript parsing (`transcript.ts`) -/

/-- Structure `TranscriptSegment` from `transcript.ts`: a cue with an offset in
seconds and its text. -/
structure TranscriptSegment where
  timestamp : Nat
  text : String
deriving DecidableEq, Repr

/-- The character class of JavaScript whitespace that matters for the
strings this parser sees (`\s` in the regex and `String.prototype.trim`). -/
def jsIsWs (c : Char) : Bool :=
  c == ' ' || c == '\t' || c == '\n' || c == '\r' || c == '\x0b' || c == '\x0c'

/-- Model of `String.prototype.trim`: drop leading and trailing whitespace. -/
def jsTrim (cs : List Char) : List Char :=
  ((cs.dropWhile jsIsWs).reverse.dropWhile jsIsWs).reverse

/-- Model of `text.split('\n')` on the character list of the input. -/
def splitNl : List Char → List (List Char)
  | [] => [[]]
  | c :: cs =>
    if c = '\n' then [] :: splitNl cs
    else
      match splitNl cs with
      | [] => [[c]]
      | l :: ls => (c :: l) :: ls

/-- Model of `parseInt(digits, 10)` on a non-empty string of decimal digits. -/
def parseIntDec (ds : List Char) : Nat :=
  ds.foldl (fun a c => 10 * a + (c.toNat - 48)) 0

/-- Matching of one line against the regex `^(\d+):(\d+)\s+(.+)$` from
`parseTranscript`, returning the three capture groups (the two numbers
already converted by `parseInt`, the text still raw).  The greedy `\d+`
runs need no backtracking because the characters required after them
(`:` and whitespace) are not digits; the greedy `\s+` backtracks by at
most one character so that `(.+)` can still match at least one character. -/
def matchLine (line : List Char) : Option (Nat × Nat × List Char) :=
  let p1 := line.span Char.isDigit
  match p1.1 with
  | [] => none
  | _ :: _ =>
    match p1.2 with
    | ':' :: r2 =>
      let p2 := r2.span Char.isDigit
      match p2.1 with
      | [] => none
      | _ :: _ =>
        let p3 := p2.2.span jsIsWs
        match p3.1 with
        | [] => none
        | _ :: ws =>
          match p3.2 with
          | [] =>
            -- the whole tail after the digits is whitespace: `(.+)` forces
            -- the regex engine to give back the last whitespace character
            match ws.getLast? with
            | some lastW => some (parseIntDec p1.1, parseIntDec p2.1, [lastW])
            | none => none
          | t :: ts => some (parseIntDec p1.1, parseIntDec p2.1, t :: ts)
    | _ => none

/-- One iteration of the `lines.map` body in `parseTranscript`: match the
regex, throw on failure, otherwise build the segment with
`timestamp = minutes * 60 + seconds` and the trimmed text. -/
def parseLine (line : List Char) : Except String TranscriptSegment :=
  match matchLine line with
  | none => Except.error ("Invalid transcript line format: " ++ String.mk line)
  | some (m, s, txt) => Except.ok ⟨m * 60 + s, String.mk (jsTrim txt)⟩

/-- The `lines.map` of `parseTranscript` under the JavaScript exception
semantics: the first throwing line aborts the whole map, so there is no
partial result. -/
def parseLines : List (List Char) → Except String (List TranscriptSegment)
  | [] => Except.ok []
  | l :: ls =>
    match parseLine l with
    | Except.error e => Except.error e
    | Except.ok seg =>
      match parseLines ls with
      | Except.error e => Except.error e
      | Except.ok segs => Except.ok (seg :: segs)

/-- The line list `parseTranscript` actually iterates over:
`text.split('\n').filter(line => line.trim() !== '')`. -/
def transcriptLines (text : String) : List (List Char) :=
  (splitNl text.data).filter (fun l => !(jsTrim l).isEmpty)

/-- Function `parseTranscript` from `transcript.ts`. -/
def parseTranscript (text : String) : Except String (List TranscriptSegment) :=
  parseLines (transcriptLines text)

/-- Function `getSegmentForTime` from `transcript.ts`: first segment whose
timestamp equals the (already integral) current second. -/
def getSegmentForTime (segments : List TranscriptSegment) (currentTime : Nat) :
    Option TranscriptSegment :=
  segments.find? (fun segment => segment.timestamp == currentTime)

/-! ## The hook state (`useMeditationTTS.ts`) -/

/-- Structure `QueuedAudio` from `useMeditationTTS.ts`: an entry of the playback
queue. -/
structure QueuedAudio where
  timestamp : Nat
  text : String
deriving DecidableEq, Repr

/-- A JavaScript `Set` of numbers, kept as an insertion-ordered duplicate-free
list.  `jsSetAdd` is `Set.prototype.add`; note that in JavaScript its return
value is the set object itself (always truthy), not a flag saying whether the
element was new. -/
def jsSetAdd (s : List Nat) (x : Nat) : List Nat :=
  if x ∈ s then s else s ++ [x]

/-- The state of `useMeditationTTS` plus the component's `isPlaying` flag:
React state, the mutable refs, and two history fields that record the
playback position (`pending` is a cue removed from the queue whose
fetch/load is in flight inside `playNextInQueue`; `current` is the cue the
active audio element is playing; `starts` is the list of timestamps whose
audio playback actually started, in order). -/
structure SessState where
  time : Nat                     -- currentTime
  running : Bool                 -- isPlaying (prop from MeditationTimer)
  loading : Bool                 -- isLoading
  playingAudio : Bool            -- isPlayingAudio
  queue : List QueuedAudio       -- audioQueue
  played : List Nat              -- playedSegmentsRef
  processing : List Nat          -- processingSegmentsRef
  lastPlayed : Option Nat        -- lastPlayedTimestampRef
  pending : Option QueuedAudio   -- cue dequeued, resolution in flight
  current : Option QueuedAudio   -- cue loaded into the audio element
  audioHalted : Bool             -- the audio element was paused by the pause effect
  starts : List Nat              -- history of playback starts
  errorMsg : Option String       -- error
deriving DecidableEq, Repr

/-- Initial state of the hook: clock at zero, nothing playing, all sets
empty. -/
def initState : SessState :=
  { time := 0, running := false, loading := false, playingAudio := false
    queue := [], played := [], processing := [], lastPlayed := none
    pending := none, current := none, audioHalted := false, starts := []
    errorMsg := none }

/-- Effect `checkForNewSegment` (lines 358-385): look up the segment due at the
current second; if the session is running and the segment has not been
played, mark it processing and append it to the queue.  Faithful to the
JavaScript: the guard `if (processingSegmentsRef.current.add(ts))` tests
the return value of `Set.prototype.add`, which is the set object and hence
always truthy, so once `hasBeenPlayed` is false the enqueue is
unconditional. -/
def checkForNewSegment (segments : List TranscriptSegment) (s : SessState) :
    SessState :=
  if s.running then
    match getSegmentForTime segments s.time with
    | some segment =>
      if segment.timestamp ∈ s.played then s
      else
        { s with processing := jsSetAdd s.processing segment.timestamp
                 queue := s.queue ++ [⟨segment.timestamp, segment.text⟩] }
    | none => s
  else s

/-- The scheduler step as the specification words it: the claim set is
checked with insert semantics, i.e. the cue is enqueued only when the
insert into the processing set actually added a new element. -/
def checkForNewSegmentSpec (segments : List TranscriptSegment) (s : SessState) :
    SessState :=
  if s.running then
    match getSegmentForTime segments s.time with
    | some segment =>
      if segment.timestamp ∈ s.played then s
      else if segment.timestamp ∈ s.processing then s
      else
        { s with processing := s.processing ++ [segment.timestamp]
                 queue := s.queue ++ [⟨segment.timestamp, segment.text⟩] }
    | none => s
  else s

/-- One second of the interval timer (lines 53-70) followed by the
`checkForNewSegment` effect, which re-runs because `currentTime` changed.
When the clock has reached the duration `setCurrentTime` returns the old
value, no state changes, and no effect re-runs. -/
def tickApply (segments : List TranscriptSegment) (duration : Nat)
    (s : SessState) : SessState :=
  if s.running ∧ s.time + 1 ≤ duration then
    checkForNewSegment segments { s with time := s.time + 1 }
  else s

/-- Effect `startPlayback` (lines 388-411): if the queue is non-empty, no audio is
playing, no load is in flight and the session is running, and the head of
the queue is marked processing, dequeue the head and hand it to
`playNextInQueue` (modelled up to its first await: `setIsLoading(true)`,
`setError(null)`, fetch/load started). -/
def startPlayback (s : SessState) : SessState :=
  match s.queue with
  | [] => s
  | c :: rest =>
    if s.playingAudio = false ∧ s.loading = false ∧ s.running = true then
      if c.timestamp ∈ s.processing then
        { s with queue := rest, pending := some c, loading := true
                 errorMsg := none }
      else s
    else s

/-- Resolution of the pending cue succeeded and the `play` event fired
(lines 171-217 and 293-303): loading ends, the audio element owns the cue,
and the playback start is recorded. -/
def fetchOkApply (s : SessState) : SessState :=
  match s.pending with
  | some c =>
    { s with pending := none, current := some c, playingAudio := true
             loading := false, audioHalted := false
             starts := s.starts ++ [c.timestamp] }
  | none => s

/-- The fetch threw or returned a non-ok response, landing in the outer
`catch` (lines 338-354): the cue is removed from the processing set, flags
are cleared and an error is surfaced. -/
def fetchErrApply (s : SessState) : SessState :=
  match s.pending with
  | some c =>
    { s with pending := none, loading := false
             processing := s.processing.erase c.timestamp
             errorMsg := some ("Failed to play audio") }
  | none => s

/-- Case where `audio.play()` was rejected by the browser (lines 304-324, e.g. the
autoplay restriction): flags are cleared and an error is surfaced, but this
handler does not remove the cue from the processing set. -/
def playRejApply (s : SessState) : SessState :=
  match s.pending with
  | some _ =>
    { s with pending := none, loading := false, playingAudio := false
             current := none
             errorMsg := some ("Audio playback was blocked by the browser") }
  | none => s

/-- The `ended` event (lines 219-242): record the cue as played and as the
last played timestamp, drop it from the processing set, and free the
player.  A paused audio element does not reach its end. -/
def endedApply (s : SessState) : SessState :=
  match s.current with
  | some c =>
    if s.audioHalted then s
    else
      { s with current := none, playingAudio := false
               played := jsSetAdd s.played c.timestamp
               processing := s.processing.erase c.timestamp
               lastPlayed := some c.timestamp }
  | none => s

/-- The `error` event of the audio element (lines 244-264): the cue is
removed from the processing set, flags are cleared and an error is
surfaced; the queue is left alone so the next drain can proceed. -/
def playErrApply (s : SessState) : SessState :=
  match s.current with
  | some c =>
    { s with current := none, playingAudio := false, loading := false
             processing := s.processing.erase c.timestamp
             errorMsg := some ("Audio playback error") }
  | none => s

/-- Pausing: `setIsPlaying(false)` in the component, after which the
pause/resume effect (lines 428-433) pauses the in-flight audio element.
Nothing else is touched. -/
def pauseApply (s : SessState) : SessState :=
  { s with running := false, audioHalted := s.current.isSome }

/-- Resuming: `setIsPlaying(true)`, after which the pause/resume effect
resumes a paused audio element (lines 416-427) and the
`checkForNewSegment` effect re-runs because `isPlaying` changed. -/
def resumeApply (segments : List TranscriptSegment) (s : SessState) :
    SessState :=
  if s.running then s
  else checkForNewSegment segments { s with running := true, audioHalted := false }

/-- Function `resetTimer` in `MeditationTimer` (lines 141-143): its entire body is
`setIsPlaying(false)`, so it coincides with pausing. -/
def resetTimer (s : SessState) : SessState :=
  pauseApply s

/-- The reset effect of the hook (lines 436-451): only when the session is
not playing and the clock already reads zero does it release the audio
element and clear the queue and the tracking sets. -/
def resetEffectApply (s : SessState) : SessState :=
  if s.running = false ∧ s.time = 0 then
    { s with current := none, audioHalted := false, queue := []
             processing := [], played := [], lastPlayed := none }
  else s

/-! ## The event-driven behaviour as a small-step relation

Each constructor is one of the atomic blocks of the cooperative event
loop; every block is total (a guarded no-op when its trigger condition
fails), so a step of each kind is available in every state. -/

/-- One atomic step of the event loop of `useMeditationTTS`. -/
inductive Step (segments : List TranscriptSegment) (duration : Nat) :
    SessState → SessState → Prop
  | tick (s : SessState) : Step segments duration s (tickApply segments duration s)
  | drain (s : SessState) : Step segments duration s (startPlayback s)
  | fetchOk (s : SessState) : Step segments duration s (fetchOkApply s)
  | fetchErr (s : SessState) : Step segments duration s (fetchErrApply s)
  | playRej (s : SessState) : Step segments duration s (playRejApply s)
  | ended (s : SessState) : Step segments duration s (endedApply s)
  | playErr (s : SessState) : Step segments duration s (playErrApply s)
  | pause (s : SessState) : Step segments duration s (pauseApply s)
  | resume (s : SessState) : Step segments duration s (resumeApply segments s)

/-- Reachability from the initial hook state. -/
def Reachable (segments : List TranscriptSegment) (duration : Nat)
    (s : SessState) : Prop :=
  Relation.ReflTransGen (Step segments duration) initState s

/-! ## Ordering invariant: playback starts are non-decreasing in offset -/

/-- The timestamp of the cue whose resolution is in flight, if any. -/
def pendTs (s : SessState) : List Nat :=
  s.pending.elim [] (fun c => [c.timestamp])

/-- All cue timestamps in dispatch order: playback starts that already
happened, then the cue being resolved, then the queue. -/
def allTs (s : SessState) : List Nat :=
  s.starts ++ (pendTs s ++ s.queue.map (fun c => c.timestamp))

/-- The inductive invariant of the event loop: the loading flag mirrors
the in-flight resolution, the playing flag mirrors the audio element, at
most one cue is between dequeue and completion, and the dispatch-ordered
timestamp list is non-decreasing and bounded by the clock. -/
structure Inv (s : SessState) : Prop where
  flagsLoad : s.loading = s.pending.isSome
  flagsPlay : s.playingAudio = s.current.isSome
  excl : s.pending = none ∨ s.current = none
  mono : List.Pairwise (· ≤ ·) (allTs s)
  bound : ∀ x ∈ allTs s, x ≤ s.time

/-- A segment found by `getSegmentForTime` is due exactly now. -/
lemma getSegmentForTime_eq_time {segments : List TranscriptSegment}
    {t : Nat} {seg : TranscriptSegment}
    (h : getSegmentForTime segments t = some seg) : seg.timestamp = t := by
  unfold getSegmentForTime at h
  have := List.find?_some h
  simpa [beq_iff_eq] using this

/-- Appending an upper bound to a non-decreasing list keeps it
non-decreasing. -/
lemma pairwise_le_append_last {l : List Nat} {a : Nat}
    (h : List.Pairwise (· ≤ ·) l) (ha : ∀ x ∈ l, x ≤ a) :
    List.Pairwise (· ≤ ·) (l ++ [a]) := by
  refine List.pairwise_append.mpr ⟨h, by simp, ?_⟩
  intro x hx y hy
  rw [List.mem_singleton] at hy
  exact hy ▸ ha x hx

/-- The effect `checkForNewSegment` either does nothing or appends the cue due at the
current second to the queue (and inserts it into the processing set). -/
lemma check_cases (segments : List TranscriptSegment) (s : SessState) :
    checkForNewSegment segments s = s ∨
    ∃ seg, getSegmentForTime segments s.time = some seg ∧
      seg.timestamp = s.time ∧
      checkForNewSegment segments s =
        { s with processing := jsSetAdd s.processing seg.timestamp
                 queue := s.queue ++ [⟨seg.timestamp, seg.text⟩] } := by
  unfold checkForNewSegment
  by_cases hr : s.running = true
  · rw [if_pos hr]
    cases hseg : getSegmentForTime segments s.time with
    | none => exact Or.inl rfl
    | some seg =>
      dsimp only
      by_cases hp : seg.timestamp ∈ s.played
      · rw [if_pos hp]; exact Or.inl rfl
      · rw [if_neg hp]
        exact Or.inr ⟨seg, rfl, getSegmentForTime_eq_time hseg, rfl⟩
  · rw [if_neg hr]; exact Or.inl rfl

/-- The invariant survives the scheduler effect. -/
lemma inv_check {segments : List TranscriptSegment} {s : SessState}
    (h : Inv s) : Inv (checkForNewSegment segments s) := by
  rcases check_cases segments s with heq | ⟨seg, _, hts, heq⟩
  · rw [heq]; exact h
  · rw [heq]
    have hall :
        allTs { s with processing := jsSetAdd s.processing seg.timestamp
                       queue := s.queue ++ [⟨seg.timestamp, seg.text⟩] }
          = allTs s ++ [seg.timestamp] := by
      simp [allTs, pendTs, List.append_assoc]
    refine ⟨h.flagsLoad, h.flagsPlay, h.excl, ?_, ?_⟩
    · rw [hall]
      exact pairwise_le_append_last h.mono (fun x hx => hts ▸ h.bound x hx)
    · intro x hx
      rw [hall] at hx
      rcases List.mem_append.mp hx with hx | hx
      · exact h.bound x hx
      · rw [List.mem_singleton] at hx
        exact hx ▸ hts.le

/-- The invariant survives a clock tick. -/
lemma inv_tick {segments : List TranscriptSegment} {duration : Nat}
    {s : SessState} (h : Inv s) : Inv (tickApply segments duration s) := by
  unfold tickApply
  by_cases hc : s.running = true ∧ s.time + 1 ≤ duration
  · rw [if_pos hc]
    exact inv_check ⟨h.flagsLoad, h.flagsPlay, h.excl, h.mono,
      fun x hx => le_trans (h.bound x hx) (Nat.le_succ _)⟩
  · rw [if_neg hc]; exact h

/-- The invariant survives the queue drainer. -/
lemma inv_drain {s : SessState} (h : Inv s) : Inv (startPlayback s) := by
  unfold startPlayback
  cases hq : s.queue with
  | nil => exact h
  | cons c rest =>
    dsimp only
    by_cases hcond : s.playingAudio = false ∧ s.loading = false ∧ s.running = true
    · rw [if_pos hcond]
      by_cases hmem : c.timestamp ∈ s.processing
      · rw [if_pos hmem]
        have hpend : s.pending = none := by
          have hl := h.flagsLoad
          rw [hcond.2.1] at hl
          cases hp : s.pending
          · rfl
          · rw [hp] at hl; simp at hl
        have hall :
            allTs { s with queue := rest, pending := some c, loading := true
                           errorMsg := none }
              = allTs s := by
          simp [allTs, pendTs, hpend, hq]
        refine ⟨rfl, h.flagsPlay, ?_, ?_, ?_⟩
        · right
          have hpa := h.flagsPlay
          rw [hcond.1] at hpa
          cases hcur : s.current
          · rfl
          · rw [hcur] at hpa; simp at hpa
        · rw [hall]; exact h.mono
        · intro x hx; rw [hall] at hx; exact h.bound x hx
      · rw [if_neg hmem]; exact h
    · rw [if_neg hcond]; exact h

/-- The invariant survives a successful resolution and playback start. -/
lemma inv_fetchOk {s : SessState} (h : Inv s) : Inv (fetchOkApply s) := by
  unfold fetchOkApply
  cases hp : s.pending with
  | none => exact h
  | some c =>
    dsimp only
    have hall :
        allTs { s with pending := none, current := some c, playingAudio := true
                       loading := false, audioHalted := false
                       starts := s.starts ++ [c.timestamp] }
          = allTs s := by
      simp [allTs, pendTs, hp, List.append_assoc]
    refine ⟨rfl, rfl, Or.inl rfl, ?_, ?_⟩
    · rw [hall]; exact h.mono
    · intro x hx; rw [hall] at hx; exact h.bound x hx

/-- Dropping the pending cue (failed fetch) preserves the invariant. -/
lemma inv_fetchErr {s : SessState} (h : Inv s) : Inv (fetchErrApply s) := by
  unfold fetchErrApply
  cases hp : s.pending with
  | none => exact h
  | some c =>
    dsimp only
    have hsub :
        List.Sublist
          (allTs { s with pending := none, loading := false
                          processing := s.processing.erase c.timestamp
                          errorMsg := some ("Failed to play audio") })
          (allTs s) := by
      simp only [allTs, pendTs, hp, Option.elim, List.nil_append,
        List.singleton_append]
      exact (List.Sublist.refl s.starts).append
        (List.Sublist.cons c.timestamp (List.Sublist.refl _))
    refine ⟨rfl, h.flagsPlay, Or.inl rfl, h.mono.sublist hsub, ?_⟩
    intro x hx
    exact h.bound x (hsub.subset hx)

/-- Dropping the pending cue (rejected play call) preserves the
invariant. -/
lemma inv_playRej {s : SessState} (h : Inv s) : Inv (playRejApply s) := by
  unfold playRejApply
  cases hp : s.pending with
  | none => exact h
  | some c =>
    dsimp only
    have hsub :
        List.Sublist
          (allTs { s with pending := none, loading := false, playingAudio := false
                          current := none
                          errorMsg := some ("Audio playback was blocked by the browser") })
          (allTs s) := by
      simp only [allTs, pendTs, hp, Option.elim, List.nil_append,
        List.singleton_append]
      exact (List.Sublist.refl s.starts).append
        (List.Sublist.cons c.timestamp (List.Sublist.refl _))
    refine ⟨rfl, rfl, Or.inl rfl, h.mono.sublist hsub, ?_⟩
    intro x hx
    exact h.bound x (hsub.subset hx)

/-- The invariant survives the `ended` event. -/
lemma inv_ended {s : SessState} (h : Inv s) : Inv (endedApply s) := by
  unfold endedApply
  cases hc : s.current with
  | none => exact h
  | some c =>
    dsimp only
    by_cases hh : s.audioHalted = true
    · rw [if_pos hh]; exact h
    · rw [if_neg hh]
      exact ⟨h.flagsLoad, rfl, Or.inr rfl, h.mono, h.bound⟩

/-- The invariant survives the `error` event. -/
lemma inv_playErr {s : SessState} (h : Inv s) : Inv (playErrApply s) := by
  unfold playErrApply
  cases hc : s.current with
  | none => exact h
  | some c =>
    dsimp only
    have hpend : s.pending = none := by
      rcases h.excl with hp | hcur
      · exact hp
      · rw [hc] at hcur; cases hcur
    refine ⟨?_, rfl, Or.inr rfl, h.mono, h.bound⟩
    rw [hpend]; rfl

/-- The invariant survives pausing. -/
lemma inv_pause {s : SessState} (h : Inv s) : Inv (pauseApply s) :=
  ⟨h.flagsLoad, h.flagsPlay, h.excl, h.mono, h.bound⟩

/-- The invariant survives resuming. -/
lemma inv_resume {segments : List TranscriptSegment} {s : SessState}
    (h : Inv s) : Inv (resumeApply segments s) := by
  unfold resumeApply
  by_cases hr : s.running = true
  · rw [if_pos hr]; exact h
  · rw [if_neg hr]
    exact inv_check ⟨h.flagsLoad, h.flagsPlay, h.excl, h.mono, h.bound⟩

/-- The invariant is inductive over every event-loop step. -/
lemma inv_step {segments : List TranscriptSegment} {duration : Nat}
    {s s2 : SessState} (hstep : Step segments duration s s2) (h : Inv s) :
    Inv s2 := by
  cases hstep with
  | tick => exact inv_tick h
  | drain => exact inv_drain h
  | fetchOk => exact inv_fetchOk h
  | fetchErr => exact inv_fetchErr h
  | playRej => exact inv_playRej h
  | ended => exact inv_ended h
  | playErr => exact inv_playErr h
  | pause => exact inv_pause h
  | resume => exact inv_resume h

/-- The invariant holds initially. -/
lemma inv_init : Inv initState := by
  refine ⟨rfl, rfl, Or.inl rfl, ?_, ?_⟩ <;> simp [allTs, pendTs, initState]

/-- Every reachable state satisfies the invariant. -/
lemma inv_reachable {segments : List TranscriptSegment} {duration : Nat}
    {s : SessState} (h : Reachable segments duration s) : Inv s := by
  induction h with
  | refl => exact inv_init
  | tail _ hstep ih => exact inv_step hstep ih

/-! ## Concrete scenario states -/

/-- A one-cue transcript: "Breathe in" at second 5. -/
def segs1 : List TranscriptSegment := [⟨5, "Breathe in"⟩]

/-- The state after starting the session on `segs1` and letting the clock
tick five times: second 5 has arrived and the cue has just been claimed
and queued. -/
def s5run : SessState :=
  (fun s => tickApply segs1 100 s)^[5] (resumeApply segs1 initState)

/-- A bare state at second 5 with the session running and the cue not yet
played, for exercising the scheduler effect in isolation. -/
def sAt5 : SessState := { initState with running := true, time := 5 }

/-- A mid-session state on `segs1`: the clock reads 10, the cue at second 5
has been played, and a cue claimed at second 7 is still queued. -/
def sRun10 : SessState :=
  { initState with running := true, time := 10, played := [5]
                   lastPlayed := some 5, queue := [⟨7, "Hold"⟩]
                   processing := [7] }

/-! ## Liveness of the queue after pause and resume -/

/-- Insertion via `Set.prototype.add` never removes elements. -/
lemma mem_jsSetAdd_of_mem {m : List Nat} {x y : Nat} (h : x ∈ m) :
    x ∈ jsSetAdd m y := by
  unfold jsSetAdd
  split
  · exact h
  · exact List.mem_append_left _ h

/-- Reduction of the drainer when all its guards hold. -/
lemma startPlayback_dequeues {s : SessState} {c : QueuedAudio}
    {rest : List QueuedAudio} (hq : s.queue = c :: rest)
    (hpa : s.playingAudio = false) (hload : s.loading = false)
    (hrun : s.running = true) (hmem : c.timestamp ∈ s.processing) :
    startPlayback s =
      { s with queue := rest, pending := some c, loading := true
               errorMsg := none } := by
  unfold startPlayback
  rw [hq]
  dsimp only
  rw [if_pos ⟨hpa, hload, hrun⟩, if_pos hmem]

/-- Reduction of a successful resolution. -/
lemma fetchOkApply_eq {s : SessState} {c : QueuedAudio}
    (h : s.pending = some c) :
    fetchOkApply s =
      { s with pending := none, current := some c, playingAudio := true
               loading := false, audioHalted := false
               starts := s.starts ++ [c.timestamp] } := by
  unfold fetchOkApply
  rw [h]

/-- Reduction of the `ended` event when the element is not paused. -/
lemma endedApply_eq {s : SessState} {c : QueuedAudio}
    (h : s.current = some c) (hh : s.audioHalted = false) :
    endedApply s =
      { s with current := none, playingAudio := false
               played := jsSetAdd s.played c.timestamp
               processing := s.processing.erase c.timestamp
               lastPlayed := some c.timestamp } := by
  unfold endedApply
  rw [h]
  dsimp only
  rw [if_neg (by rw [hh]; exact Bool.false_ne_true)]

/-- Reduction of resuming from a paused state. -/
lemma resumeApply_eq {segments : List TranscriptSegment} {s : SessState}
    (h : s.running = false) :
    resumeApply segments s =
      checkForNewSegment segments { s with running := true, audioHalted := false } := by
  unfold resumeApply
  rw [if_neg (by rw [h]; exact Bool.false_ne_true)]

/-- From any state in which the drainer can run freely, the cues of the
queue prefix `q` all start playing, in queue order. -/
lemma drainRun (segments : List TranscriptSegment) (duration : Nat) :
    ∀ (q e : List QueuedAudio) (s : SessState),
      s.queue = q ++ e → s.running = true → s.loading = false →
      s.playingAudio = false → s.pending = none → s.current = none →
      s.audioHalted = false →
      (∀ c ∈ q, c.timestamp ∈ s.processing) →
      (q.map (fun c => c.timestamp)).Nodup →
      ∃ s2, Relation.ReflTransGen (Step segments duration) s s2 ∧
        s2.starts = s.starts ++ q.map (fun c => c.timestamp) := by
  intro q
  induction q with
  | nil =>
    intro e s _ _ _ _ _ _ _ _ _
    exact ⟨s, Relation.ReflTransGen.refl, by simp⟩
  | cons c q ih =>
    intro e s hq hrun hload hpa hpend hcur hhalt hproc hnd
    have hq2 : s.queue = c :: (q ++ e) := by simpa using hq
    have h1 : startPlayback s =
        { s with queue := q ++ e, pending := some c, loading := true
                 errorMsg := none } :=
      startPlayback_dequeues hq2 hpa hload hrun (hproc c (List.mem_cons_self c q))
    have hndq : (q.map (fun x => x.timestamp)).Nodup ∧
        c.timestamp ∉ q.map (fun x => x.timestamp) := by
      rw [List.map_cons, List.nodup_cons] at hnd
      exact ⟨hnd.2, hnd.1⟩
    obtain ⟨s4, hsteps, hstarts⟩ :=
      ih e (endedApply (fetchOkApply (startPlayback s)))
        (by rw [h1]; rfl) (by rw [h1]; exact hrun) (by rw [h1]; rfl)
        (by rw [h1]; rfl) (by rw [h1]; rfl) (by rw [h1]; rfl)
        (by rw [h1]; rfl)
        (by
          intro x hx
          rw [h1]
          show x.timestamp ∈ s.processing.erase c.timestamp
          rw [List.mem_erase_of_ne]
          · exact hproc x (List.mem_cons_of_mem c hx)
          · intro hxc
            exact hndq.2 (hxc ▸ List.mem_map_of_mem (fun y => y.timestamp) hx))
        hndq.1
    refine ⟨s4, ?_, ?_⟩
    · exact Relation.ReflTransGen.head (Step.drain s)
        (Relation.ReflTransGen.head (Step.fetchOk (startPlayback s))
          (Relation.ReflTransGen.head (Step.ended (fetchOkApply (startPlayback s)))
            hsteps))
    · rw [hstarts, h1]
      show (s.starts ++ [c.timestamp]) ++ q.map (fun x => x.timestamp) = _
      simp

/-- C4.  Pausing mid-session modifies only the running flag (and pauses
the audio element): queue, played set, processing set, pending cue, clock
and playback history are all untouched.  Moreover, from a paused state in
which a cue `c` was already dequeued but its playback had not yet started
and the cues `q` are still queued (with the bookkeeping a real run
establishes: distinct offsets, all marked processing), there is a
continuation of the event loop — the pending resolution completing, the
session resuming, the queue draining — after which `c` and then every cue
of `q` has started playing, in their original order. -/
theorem claim_C4_pause_frame_and_resume (segments : List TranscriptSegment)
    (duration : Nat) (s : SessState) (c : QueuedAudio) (q : List QueuedAudio)
    (_hrun : s.running = true) (hq : s.queue = q) (hpend : s.pending = some c)
    (hcur : s.current = none) (_hload : s.loading = true)
    (_hpa : s.playingAudio = false)
    (hproc : ∀ x ∈ q, x.timestamp ∈ s.processing)
    (hnd : (q.map (fun x => x.timestamp)).Nodup)
    (hc : c.timestamp ∉ q.map (fun x => x.timestamp)) :
    (pauseApply s).queue = s.queue ∧
    (pauseApply s).played = s.played ∧
    (pauseApply s).processing = s.processing ∧
    (pauseApply s).pending = s.pending ∧
    (pauseApply s).time = s.time ∧
    (pauseApply s).starts = s.starts ∧
    (pauseApply s).running = false ∧
    ∃ s2, Relation.ReflTransGen (Step segments duration) (pauseApply s) s2 ∧
      s2.starts = s.starts ++ (c.timestamp :: q.map (fun x => x.timestamp)) := by
  refine ⟨rfl, rfl, rfl, rfl, rfl, rfl, rfl, ?_⟩
  have hhalt : (pauseApply s).audioHalted = false := by
    show s.current.isSome = false
    rw [hcur]
    rfl
  have e1 : fetchOkApply (pauseApply s) =
      { pauseApply s with pending := none, current := some c
                          playingAudio := true, loading := false
                          audioHalted := false
                          starts := (pauseApply s).starts ++ [c.timestamp] } :=
    fetchOkApply_eq hpend
  have e2 : endedApply (fetchOkApply (pauseApply s)) =
      { s with running := false, audioHalted := false, pending := none
               current := none, playingAudio := false, loading := false
               starts := s.starts ++ [c.timestamp]
               played := jsSetAdd s.played c.timestamp
               processing := s.processing.erase c.timestamp
               lastPlayed := some c.timestamp } := by
    rw [e1]
    rfl
  have e3 : resumeApply segments (endedApply (fetchOkApply (pauseApply s))) =
      checkForNewSegment segments
        { s with running := true, audioHalted := false, pending := none
                 current := none, playingAudio := false, loading := false
                 starts := s.starts ++ [c.timestamp]
                 played := jsSetAdd s.played c.timestamp
                 processing := s.processing.erase c.timestamp
                 lastPlayed := some c.timestamp } := by
    rw [e2]
    rfl
  have hbase : ∀ x ∈ q, x.timestamp ∈ s.processing.erase c.timestamp := by
    intro x hx
    rw [List.mem_erase_of_ne]
    · exact hproc x hx
    · intro hxc
      exact hc (hxc ▸ List.mem_map_of_mem (fun y => y.timestamp) hx)
  rcases check_cases segments
      { s with running := true, audioHalted := false, pending := none
               current := none, playingAudio := false, loading := false
               starts := s.starts ++ [c.timestamp]
               played := jsSetAdd s.played c.timestamp
               processing := s.processing.erase c.timestamp
               lastPlayed := some c.timestamp } with hX | ⟨seg, _, _, hX⟩
  · obtain ⟨s2, hsteps, hstarts⟩ :=
      drainRun segments duration q []
        { s with running := true, audioHalted := false, pending := none
                 current := none, playingAudio := false, loading := false
                 starts := s.starts ++ [c.timestamp]
                 played := jsSetAdd s.played c.timestamp
                 processing := s.processing.erase c.timestamp
                 lastPlayed := some c.timestamp }
        (by show s.queue = q ++ []; rw [hq, List.append_nil]) rfl rfl rfl rfl
        rfl rfl hbase hnd
    refine ⟨s2, ?_, ?_⟩
    · refine Relation.ReflTransGen.head (Step.fetchOk (pauseApply s))
        (Relation.ReflTransGen.head (Step.ended (fetchOkApply (pauseApply s)))
          (Relation.ReflTransGen.head
            (Step.resume (endedApply (fetchOkApply (pauseApply s)))) ?_))
      rw [e3, hX]
      exact hsteps
    · rw [hstarts]
      show (s.starts ++ [c.timestamp]) ++ q.map (fun x => x.timestamp) = _
      simp
  · obtain ⟨s2, hsteps, hstarts⟩ :=
      drainRun segments duration q [⟨seg.timestamp, seg.text⟩]
        { s with running := true, audioHalted := false, pending := none
                 current := none, playingAudio := false, loading := false
                 starts := s.starts ++ [c.timestamp]
                 played := jsSetAdd s.played c.timestamp
                 processing := jsSetAdd (s.processing.erase c.timestamp) seg.timestamp
                 lastPlayed := some c.timestamp
                 queue := s.queue ++ [⟨seg.timestamp, seg.text⟩] }
        (by show s.queue ++ [⟨seg.timestamp, seg.text⟩] = q ++ _; rw [hq]) rfl rfl
        rfl rfl rfl rfl
        (fun x hx => mem_jsSetAdd_of_mem (hbase x hx)) hnd
    refine ⟨s2, ?_, ?_⟩
    · refine Relation.ReflTransGen.head (Step.fetchOk (pauseApply s))
        (Relation.ReflTransGen.head (Step.ended (fetchOkApply (pauseApply s)))
          (Relation.ReflTransGen.head
            (Step.resume (endedApply (fetchOkApply (pauseApply s)))) ?_))
      rw [e3, hX]
      exact hsteps
    · rw [hstarts]
      show (s.starts ++ [c.timestamp]) ++ q.map (fun x => x.timestamp) = _
      simp

/-- A paused-mid-playback scenario for C4: cue at 5 dequeued with its
resolution in flight, cue at 6 still queued, both marked processing. -/
def sC4 : SessState :=
  { initState with running := true, loading := true, queue := [⟨6, "b"⟩]
                   processing := [5, 6], pending := some ⟨5, "a"⟩ }

/-- Witness for C4 at the concrete scenario `sC4`. -/
theorem claim_C4_witness :
    (pauseApply sC4).queue = sC4.queue ∧
    (pauseApply sC4).played = sC4.played ∧
    (pauseApply sC4).processing = sC4.processing ∧
    (pauseApply sC4).pending = sC4.pending ∧
    (pauseApply sC4).time = sC4.time ∧
    (pauseApply sC4).starts = sC4.starts ∧
    (pauseApply sC4).running = false ∧
    ∃ s2, Relation.ReflTransGen (Step ([] : List TranscriptSegment) 100)
        (pauseApply sC4) s2 ∧
      s2.starts = sC4.starts ++ (5 :: [6]) :=
  claim_C4_pause_frame_and_resume [] 100 sC4 ⟨5, "a"⟩ [⟨6, "b"⟩]
    rfl rfl rfl rfl rfl rfl (by decide) (by decide) (by decide)

/-! ## A reachable pause state whose queued cue can never play

The duplicate-claim defect (see C1) lets the queue acquire two entries for
the same offset.  Once the first copy has played, its offset has been
erased from the processing set, and the drainer refuses the stale
duplicate at the head forever — wedging every cue queued behind it. -/

/-- Three cues at seconds 4, 5 and 7. -/
def segsW : List TranscriptSegment := [⟨4, "x"⟩, ⟨5, "a"⟩, ⟨7, "c"⟩]

/-- A run on `segsW`: start; tick to 4 (cue x claimed) and dequeue it; at
5 claim cue a while x's fetch is in flight; pause and resume during
second 5 (the due-check re-fires and, `Set.add` being always truthy,
enqueues a second copy of cue a); tick to 7 (cue c claimed); x's audio
plays and ends; the first copy of a plays and ends; pause. -/
def tW1 : SessState := resumeApply segsW initState

/-- Second 1. -/
def tW2 : SessState := tickApply segsW 100 tW1

/-- Second 2. -/
def tW3 : SessState := tickApply segsW 100 tW2

/-- Second 3. -/
def tW4 : SessState := tickApply segsW 100 tW3

/-- Second 4: cue x is claimed and queued. -/
def tW5 : SessState := tickApply segsW 100 tW4

/-- Cue x dequeued, its fetch in flight. -/
def tW6 : SessState := startPlayback tW5

/-- Second 5: cue a claimed and queued. -/
def tW7 : SessState := tickApply segsW 100 tW6

/-- Pause during second 5. -/
def tW8 : SessState := pauseApply tW7

/-- Resume during second 5: the due-check re-fires and enqueues a second
copy of cue a. -/
def tW9 : SessState := resumeApply segsW tW8

/-- Second 6. -/
def tW10 : SessState := tickApply segsW 100 tW9

/-- Second 7: cue c claimed and queued. -/
def tW11 : SessState := tickApply segsW 100 tW10

/-- Cue x's audio starts. -/
def tW12 : SessState := fetchOkApply tW11

/-- Cue x's audio ends. -/
def tW13 : SessState := endedApply tW12

/-- The first copy of cue a is dequeued. -/
def tW14 : SessState := startPlayback tW13

/-- Cue a's audio starts. -/
def tW15 : SessState := fetchOkApply tW14

/-- Cue a's audio ends: offset 5 leaves the processing set, but its stale
duplicate still heads the queue. -/
def tW16 : SessState := endedApply tW15

/-- The pause under scrutiny: the queue still holds the duplicate of cue a
and the never-played cue c. -/
def sW : SessState := pauseApply tW16

/-- The wedged shape: a stale duplicate of cue a heads the queue while
offset 5 is no longer marked processing, nothing is in flight, the
playback history is frozen at `[4, 5]`, and the clock is past every
earlier cue. -/
def Wedged (s : SessState) : Prop :=
  (∃ rest, s.queue = (⟨5, "a"⟩ : QueuedAudio) :: rest) ∧
  (5 : Nat) ∉ s.processing ∧ s.pending = none ∧ s.current = none ∧
  s.starts = [4, 5] ∧ 7 ≤ s.time

/-- The scheduler effect cannot unwedge: it only appends a cue due at the
current second (which is past 5) and inserts that second into the
processing set. -/
lemma wedged_check (segments : List TranscriptSegment) {s : SessState}
    (h : Wedged s) : Wedged (checkForNewSegment segments s) := by
  rcases check_cases segments s with heq | ⟨seg, _, hts, heq⟩
  · rw [heq]; exact h
  · rw [heq]
    obtain ⟨rest, hq⟩ := h.1
    refine ⟨⟨rest ++ [⟨seg.timestamp, seg.text⟩], ?_⟩, ?_, h.2.2.1,
      h.2.2.2.1, h.2.2.2.2.1, h.2.2.2.2.2⟩
    · show s.queue ++ [⟨seg.timestamp, seg.text⟩] = _
      rw [hq]
      rfl
    · show (5 : Nat) ∉ jsSetAdd s.processing seg.timestamp
      unfold jsSetAdd
      split
      · exact h.2.1
      · intro hmem
        rcases List.mem_append.mp hmem with hmem | hmem
        · exact h.2.1 hmem
        · rw [List.mem_singleton] at hmem
          have h7 := h.2.2.2.2.2
          omega

/-- No event-loop step can unwedge the state. -/
lemma wedged_step {duration : Nat} {s s2 : SessState}
    (hstep : Step segsW duration s s2) (h : Wedged s) : Wedged s2 := by
  cases hstep with
  | tick =>
    unfold tickApply
    by_cases hc : s.running = true ∧ s.time + 1 ≤ duration
    · rw [if_pos hc]
      refine wedged_check segsW ⟨h.1, h.2.1, h.2.2.1, h.2.2.2.1,
        h.2.2.2.2.1, ?_⟩
      have h7 := h.2.2.2.2.2
      show 7 ≤ s.time + 1
      omega
    · rw [if_neg hc]; exact h
  | drain =>
    obtain ⟨rest, hq⟩ := h.1
    unfold startPlayback
    rw [hq]
    dsimp only
    by_cases hcond : s.playingAudio = false ∧ s.loading = false ∧ s.running = true
    · rw [if_pos hcond, if_neg h.2.1]
      exact h
    · rw [if_neg hcond]
      exact h
  | fetchOk =>
    unfold fetchOkApply
    rw [h.2.2.1]
    exact h
  | fetchErr =>
    unfold fetchErrApply
    rw [h.2.2.1]
    exact h
  | playRej =>
    unfold playRejApply
    rw [h.2.2.1]
    exact h
  | ended =>
    unfold endedApply
    rw [h.2.2.2.1]
    exact h
  | playErr =>
    unfold playErrApply
    rw [h.2.2.2.1]
    exact h
  | pause => exact h
  | resume =>
    unfold resumeApply
    by_cases hr : s.running = true
    · rw [if_pos hr]; exact h
    · rw [if_neg hr]
      exact wedged_check segsW h

/-- C4 (counterexample).  A reachable pause state on `segsW` in which the
cue at second 7 is queued, yet after the pause no continuation of the
event loop — resuming included — ever starts another playback: the
playback history stays `[4, 5]` forever, so the queued cue at 7 never
plays.  The queue is wedged behind a stale duplicate created by the
always-truthy `Set.add` claim guard, contradicting the claim that
resuming leads to every cue queued at pause time playing. -/
theorem claim_C4_counterexample :
    Reachable segsW 100 sW ∧
    sW.running = false ∧
    sW.queue = [⟨5, "a"⟩, ⟨7, "c"⟩] ∧
    ∀ s2, Relation.ReflTransGen (Step segsW 100) sW s2 → s2.starts = [4, 5] := by
  refine ⟨?_, rfl, rfl, ?_⟩
  · refine Relation.ReflTransGen.head (Step.resume initState) ?_
    refine Relation.ReflTransGen.head (Step.tick tW1) ?_
    refine Relation.ReflTransGen.head (Step.tick tW2) ?_
    refine Relation.ReflTransGen.head (Step.tick tW3) ?_
    refine Relation.ReflTransGen.head (Step.tick tW4) ?_
    refine Relation.ReflTransGen.head (Step.drain tW5) ?_
    refine Relation.ReflTransGen.head (Step.tick tW6) ?_
    refine Relation.ReflTransGen.head (Step.pause tW7) ?_
    refine Relation.ReflTransGen.head (Step.resume tW8) ?_
    refine Relation.ReflTransGen.head (Step.tick tW9) ?_
    refine Relation.ReflTransGen.head (Step.tick tW10) ?_
    refine Relation.ReflTransGen.head (Step.fetchOk tW11) ?_
    refine Relation.ReflTransGen.head (Step.ended tW12) ?_
    refine Relation.ReflTransGen.head (Step.drain tW13) ?_
    refine Relation.ReflTransGen.head (Step.fetchOk tW14) ?_
    refine Relation.ReflTransGen.head (Step.ended tW15) ?_
    exact Relation.ReflTransGen.head (Step.pause tW16) Relation.ReflTransGen.refl
  · intro s2 h2
    have hW : Wedged sW :=
      ⟨⟨[⟨7, "c"⟩], rfl⟩, by decide, rfl, rfl, rfl, by decide⟩
    have hfinal : Wedged s2 := by
      induction h2 with
      | refl => exact hW
      | tail _ hstep ih => exact wedged_step hstep ih
    exact hfinal.2.2.2.2.1

/-- A one-cue transcript whose cue is due immediately at second 0. -/
def segs0 : List TranscriptSegment := [⟨0, "Begin"⟩]

/-- A small concrete run on `segs0`: start the session (which claims the
cue due at second 0), drain the queue, and let its playback start. -/
def sC3 : SessState := fetchOkApply (startPlayback (resumeApply segs0 initState))

/-! ## Claims about the scheduler and the lifecycle -/

/-- C3.  In every reachable state the recorded playback starts are
non-decreasing in offset, and the queue is ordered by non-decreasing
offset as well: cues are claimed in clock order, the drainer only ever
takes the head of the queue, and at most one cue is between dequeue and
playback start at a time, so a later-offset cue can never begin playing
before an earlier one that begins at all. -/
theorem claim_C3_playback_order (segments : List TranscriptSegment)
    (duration : Nat) (s : SessState) (h : Reachable segments duration s) :
    List.Pairwise (· ≤ ·) s.starts ∧
    List.Pairwise (· ≤ ·) (s.queue.map (fun c => c.timestamp)) := by
  have hinv := inv_reachable h
  have hmono := hinv.mono
  unfold allTs at hmono
  rw [List.pairwise_append] at hmono
  refine ⟨hmono.1, ?_⟩
  have h2 := hmono.2.1
  rw [List.pairwise_append] at h2
  exact h2.2.1

/-- Witness for C3 at the end of a concrete three-step run in which one
playback actually started. -/
theorem claim_C3_witness :
    List.Pairwise (· ≤ ·) sC3.starts ∧
    List.Pairwise (· ≤ ·) (sC3.queue.map (fun c => c.timestamp)) :=
  claim_C3_playback_order segs0 100 sC3
    (Relation.ReflTransGen.head (Step.resume initState)
      (Relation.ReflTransGen.head (Step.drain _)
        (Relation.ReflTransGen.head (Step.fetchOk _) Relation.ReflTransGen.refl)))

/-- C9.  `startPlayback` dequeues only when all four preconditions hold
(queue non-empty, no audio playing, no load in flight, session running):
when any of them fails the state is returned unchanged, any state change
implies all four held, and when they hold and the head is marked
processing, the head is dequeued and its resolution started. -/
theorem claim_C9_drainer_guards (s : SessState) :
    (¬(s.queue ≠ [] ∧ s.playingAudio = false ∧ s.loading = false ∧
        s.running = true) → startPlayback s = s) ∧
    (startPlayback s ≠ s →
      s.queue ≠ [] ∧ s.playingAudio = false ∧ s.loading = false ∧
        s.running = true) ∧
    (∀ c rest, s.queue = c :: rest →
      s.playingAudio = false → s.loading = false → s.running = true →
      c.timestamp ∈ s.processing →
      startPlayback s =
        { s with queue := rest, pending := some c, loading := true
                 errorMsg := none }) := by
  unfold startPlayback
  cases hq : s.queue with
  | nil =>
    refine ⟨fun _ => rfl, fun hne => absurd rfl hne, ?_⟩
    intro c rest heq
    cases heq
  | cons c rest =>
    dsimp only
    by_cases hcond : s.playingAudio = false ∧ s.loading = false ∧ s.running = true
    · by_cases hmem : c.timestamp ∈ s.processing
      · rw [if_pos hcond, if_pos hmem]
        refine ⟨?_, ?_, ?_⟩
        · intro hn
          exact absurd ⟨List.cons_ne_nil c rest, hcond.1, hcond.2.1, hcond.2.2⟩ hn
        · intro _
          exact ⟨List.cons_ne_nil c rest, hcond.1, hcond.2.1, hcond.2.2⟩
        · intro c2 rest2 heq _ _ _ _
          injection heq with h1 h2
          subst h1; subst h2; rfl
      · rw [if_pos hcond, if_neg hmem]
        refine ⟨fun _ => rfl, fun hne => absurd rfl hne, ?_⟩
        intro c2 rest2 heq _ _ _ hm
        injection heq with h1 h2
        subst h1
        exact absurd hm hmem
    · rw [if_neg hcond]
      refine ⟨fun _ => rfl, fun hne => absurd rfl hne, ?_⟩
      intro c2 rest2 heq h1 h2 h3 _
      exact absurd ⟨h1, h2, h3⟩ hcond

/-- Witness for C9: in the initial state the queue is empty, so the
drainer is a no-op. -/
theorem claim_C9_witness : startPlayback initState = initState :=
  (claim_C9_drainer_guards initState).1 (by decide)

/-- C1.  The check-and-claim step of the scheduler does not claim at most
once: because JavaScript `Set.prototype.add` returns the set object (always
truthy) rather than whether the element was newly inserted, a second run of
`checkForNewSegment` at the same clock second — here produced by pausing
and resuming during second 5, and also by running the effect twice directly
— appends the same unplayed cue to the playback queue a second time.  The
variant with the insert semantics the specification demands
(`checkForNewSegmentSpec`) enqueues it only once. -/
theorem claim_C1_duplicate_claim :
    ((resumeApply segs1 (pauseApply s5run)).queue.map
        (fun c => c.timestamp) = [5, 5]) ∧
    ((checkForNewSegment segs1 (checkForNewSegment segs1 sAt5)).queue.map
        (fun c => c.timestamp) = [5, 5]) ∧
    ((checkForNewSegmentSpec segs1 (checkForNewSegmentSpec segs1 sAt5)).queue.map
        (fun c => c.timestamp) = [5]) := by
  refine ⟨?_, ?_, ?_⟩ <;> rfl

/-- Helper for C2: once the clock is past every cue of `segs1`, further
ticks never enqueue anything (the only cue sits at second 5). -/
lemma tick_no_requeue (n : Nat) :
    ∀ s : SessState, 6 ≤ s.time →
      6 ≤ ((fun st => tickApply segs1 120 st)^[n] s).time ∧
      ((fun st => tickApply segs1 120 st)^[n] s).queue = s.queue := by
  induction n with
  | zero =>
    intro s h
    exact ⟨h, rfl⟩
  | succ n ih =>
    intro s h
    rw [Function.iterate_succ_apply]
    have hstep :
        6 ≤ (tickApply segs1 120 s).time ∧
        (tickApply segs1 120 s).queue = s.queue := by
      unfold tickApply
      split
      · next hcond =>
        have hne : getSegmentForTime segs1 (s.time + 1) = none := by
          have h5 : ((5 : Nat) == s.time + 1) = false := by
            simp only [beq_eq_false_iff_ne, ne_eq]
            omega
          simp [getSegmentForTime, segs1, List.find?, h5]
        simp [checkForNewSegment, hne]
        omega
      · exact ⟨h, rfl⟩
    obtain ⟨h1, h2⟩ := ih (tickApply segs1 120 s) hstep.1
    exact ⟨h1, h2.trans hstep.2⟩

/-- C2.  The reset operation does not reset: `resetTimer` only sets
`isPlaying` to false, nothing ever returns `currentTime` to zero, and the
clearing effect of the hook is guarded by `currentTime === 0`, so after a
run it never fires.  At the mid-session state `sRun10`, pressing Reset
leaves the clock at 10, the played set and last-played marker intact and
the queued cue still queued; and after resuming, no number of further
clock ticks ever re-claims the already-played cue at second 5 (the queue
never changes again). -/
theorem claim_C2_reset_is_only_pause :
    (resetEffectApply (resetTimer sRun10)).time = 10 ∧
    (resetEffectApply (resetTimer sRun10)).running = false ∧
    (resetEffectApply (resetTimer sRun10)).played = [5] ∧
    (resetEffectApply (resetTimer sRun10)).lastPlayed = some 5 ∧
    (resetEffectApply (resetTimer sRun10)).queue = [⟨7, "Hold"⟩] ∧
    ∀ n : Nat,
      ((fun st => tickApply segs1 120 st)^[n]
          (resumeApply segs1 (resetEffectApply (resetTimer sRun10)))).queue
        = [⟨7, "Hold"⟩] := by
  refine ⟨rfl, rfl, rfl, rfl, rfl, ?_⟩
  intro n
  have h6 : 6 ≤ (resumeApply segs1 (resetEffectApply (resetTimer sRun10))).time := by
    decide
  have := (tick_no_requeue n _ h6).2
  rw [this]
  rfl

/-! ## Claims about the transcript parser -/

/-- C5 (counterexample).  A line whose seconds field is outside 0-59 is not
rejected: `parseTranscript` accepts "00:99 text" and returns a segment at
99 seconds instead of raising a parse error. -/
theorem claim_C5_counterexample :
    parseTranscript ("00:99 text") = Except.ok [⟨99, "text"⟩] := by rfl

/-- C5 (amended).  The parser performs no range check on the seconds field:
any line of the shape digits, colon, digits, whitespace, text is accepted,
and the timestamp is always `minutes * 60 + seconds`, also when the
seconds value exceeds 59. -/
theorem claim_C5_amended_no_seconds_check :
    parseTranscript ("00:99 a") = Except.ok [⟨99, "a"⟩] ∧
    parseTranscript ("02:75 b") = Except.ok [⟨195, "b"⟩] ∧
    parseTranscript ("00:30 c") = Except.ok [⟨30, "c"⟩] := by
  refine ⟨?_, ?_, ?_⟩ <;> rfl

/-- C6 (counterexample).  A whitespace-only line is not a parse error:
`parseTranscript` filters such lines out before matching, so an input
consisting of one whitespace-only line parses successfully to the empty
segment list instead of aborting. -/
theorem claim_C6_counterexample :
    parseTranscript ("   ") = Except.ok [] := by rfl

/-- Helper for C6: the first line that fails the regex aborts the whole
`lines.map`, so no partial segment list survives. -/
lemma parseLines_error_of_mem :
    ∀ (ls : List (List Char)) (l : List Char) (e : String),
      l ∈ ls → parseLine l = Except.error e →
      ∃ e2, parseLines ls = Except.error e2 := by
  intro ls
  induction ls with
  | nil => intro l e h; cases h
  | cons a as ih =>
    intro l e hmem hpl
    rcases List.mem_cons.mp hmem with rfl | hin
    · exact ⟨e, by simp [parseLines, hpl]⟩
    · cases h2 : parseLine a with
      | error e3 => exact ⟨e3, by simp [parseLines, h2]⟩
      | ok seg =>
        obtain ⟨e2, h3⟩ := ih l e hin hpl
        exact ⟨e2, by simp [parseLines, h2, h3]⟩

/-- C6 (amended).  Whitespace-only lines are silently dropped by the
`filter` before matching; every other line that fails the
`MM:SS text` regex aborts the entire parse with no partial result; and a
minutes field above 59 is accepted and converted to
`minutes * 60 + seconds`. -/
theorem claim_C6_amended_blank_lines_skipped :
    parseTranscript ("00:05 hi\n   \n00:10 bye")
      = Except.ok [⟨5, "hi"⟩, ⟨10, "bye"⟩] ∧
    parseTranscript ("90:00 text") = Except.ok [⟨5400, "text"⟩] ∧
    ∀ (text : String) (l : List Char) (e : String),
      l ∈ transcriptLines text → parseLine l = Except.error e →
      ∃ e2, parseTranscript text = Except.error e2 := by
  refine ⟨rfl, rfl, ?_⟩
  intro text l e h1 h2
  exact parseLines_error_of_mem (transcriptLines text) l e h1 h2

/-- Witness for C6: on the concrete input "00:05 hi\nbad", the line "bad"
is kept by the filter, fails the regex, and the whole parse aborts. -/
theorem claim_C6_witness :
    ("bad".data ∈ transcriptLines ("00:05 hi\nbad") ∧
      parseLine ("bad".data)
        = Except.error ("Invalid transcript line format: bad")) ∧
    ∃ e2, parseTranscript ("00:05 hi\nbad") = Except.error e2 :=
  ⟨⟨by decide, by rfl⟩,
    claim_C6_amended_blank_lines_skipped.2.2 ("00:05 hi\nbad") ("bad".data)
      ("Invalid transcript line format: bad") (by decide) (by rfl)⟩

/-! ## Preload cache (`preloadAllSegments`) and audio resolution -/

/-- Preloading status of the hook. -/
inductive PreloadStatus
  | idle
  | loading
  | complete
  | error
deriving DecidableEq, Repr

/-- One entry of the batch response (`BatchResult` in the source). -/
structure BatchResult where
  timestamp : Nat
  audioData : String
  success : Bool
deriving DecidableEq, Repr

/-- The outcome of the `/api/tts/batch` call as the hook observes it: a
parsed body with per-cue results, or a top-level failure (non-ok response
or a thrown error). -/
inductive BatchResponse
  | ok (results : List BatchResult)
  | fail
deriving DecidableEq

/-- The preloading slice of the hook state: `preloadingStatus`,
`preloadProgress`, the `preloadedAudioRef` map from offset to object URL,
and the surfaced error. -/
structure PreloadState where
  status : PreloadStatus
  progress : Nat
  cache : List (Nat × String)
  errorMsg : Option String
deriving DecidableEq, Repr

/-- Model of `Map.prototype.set`: overwrite the value when the key exists,
otherwise append the pair. -/
def mapSet (m : List (Nat × String)) (k : Nat) (v : String) :
    List (Nat × String) :=
  if m.any (fun p => p.1 == k) then
    m.map (fun p => if p.1 == k then (k, v) else p)
  else m ++ [(k, v)]

/-- Model of `Map.prototype.has`. -/
def mapHas (m : List (Nat × String)) (k : Nat) : Bool :=
  m.any (fun p => p.1 == k)

/-- Model of `Map.prototype.get` (partial). -/
def mapGet? (m : List (Nat × String)) (k : Nat) : Option String :=
  (m.find? (fun p => p.1 == k)).map (fun p => p.2)

/-- Model of `URL.createObjectURL` on the blob decoded from the base64 payload,
modelled as an injective tag on the payload. -/
def createObjectURL (data : String) : String := "blob:" ++ data

/-- Model of `Math.round(100 * size / len)` on naturals. -/
def jsRound100 (size len : Nat) : Nat := (200 * size + len) / (2 * len)

/-- The `for (const result of successfulResults)` loop: decode each
successful entry and `set` it into the cache keyed by its offset. -/
def insertResults (cache : List (Nat × String)) :
    List BatchResult → List (Nat × String)
  | [] => cache
  | r :: rs => insertResults (mapSet cache r.timestamp (createObjectURL r.audioData)) rs

/-- Effect `preloadAllSegments` (lines 73-134): no-op when there are no segments
or preloading is already under way or done; on a top-level failure set
status `error` and surface a message; on a parsed response insert only the
successful per-cue results into the cache, update the progress, and end
with status `complete` regardless of individual failures. -/
def preloadAllSegments (segments : List TranscriptSegment) (st : PreloadState)
    (resp : BatchResponse) : PreloadState :=
  if segments.length = 0 ∨ st.status = PreloadStatus.loading ∨
      st.status = PreloadStatus.complete then st
  else
    match resp with
    | BatchResponse.fail =>
      { st with status := PreloadStatus.error, progress := 0
                errorMsg := some ("Failed to preload audio segments") }
    | BatchResponse.ok results =>
      let cache2 := insertResults st.cache (results.filter (fun r => r.success))
      { st with status := PreloadStatus.complete
                progress := jsRound100 cache2.length segments.length
                cache := cache2 }

/-- What the audio-resolution step of `playNextInQueue` (lines 171-200)
produces for a dequeued cue: the object URL it will play and whether the
live per-cue `/api/tts` request was issued.  The cached URL is used iff
the offset is present in the preload cache. -/
structure ResolveResult where
  url : String
  fetchIssued : Bool
deriving DecidableEq, Repr

/-- The cache-or-fetch branch of `playNextInQueue`: use the preloaded URL
when the offset is in the cache, otherwise issue the live synthesis
request (whose decoded object URL is `liveUrl`). -/
def resolveAudioSource (cache : List (Nat × String)) (cue : QueuedAudio)
    (liveUrl : String) : ResolveResult :=
  match mapGet? cache cue.timestamp with
  | some u => ⟨u, false⟩
  | none => ⟨liveUrl, true⟩

/-- The `has` and `get` views of the modelled map agree. -/
lemma mapHas_eq_isSome (m : List (Nat × String)) (k : Nat) :
    mapHas m k = (mapGet? m k).isSome := by
  unfold mapHas mapGet?
  cases hf : m.find? (fun p => p.1 == k) with
  | none =>
    have h1 := List.find?_eq_none.mp hf
    show m.any (fun p => p.1 == k) = false
    rw [← Bool.not_eq_true, List.any_eq_true]
    rintro ⟨x, hx, hpx⟩
    exact h1 x hx hpx
  | some p =>
    have hp := List.find?_some hf
    have hm := List.mem_of_find?_eq_some hf
    show m.any (fun p => p.1 == k) = true
    rw [List.any_eq_true]
    exact ⟨p, hm, hp⟩

/-- Membership after `Map.set`: the new key, or anything that was there
before. -/
lemma mapHas_iff (m : List (Nat × String)) (t : Nat) :
    mapHas m t = true ↔ ∃ p ∈ m, p.1 = t := by
  unfold mapHas
  rw [List.any_eq_true]
  simp [beq_iff_eq]

lemma mapHas_mapSet_iff (m : List (Nat × String)) (k t : Nat) (v : String) :
    mapHas (mapSet m k v) t = true ↔ (t = k ∨ mapHas m t = true) := by
  rw [mapHas_iff, mapHas_iff]
  unfold mapSet
  by_cases hEx : m.any (fun p => p.1 == k) = true
  · rw [if_pos hEx]
    rw [List.any_eq_true] at hEx
    obtain ⟨p0, hp0, hp0k⟩ := hEx
    have hp0k : p0.1 = k := by simpa [beq_iff_eq] using hp0k
    constructor
    · rintro ⟨q, hq, hqt⟩
      rw [List.mem_map] at hq
      obtain ⟨p, hp, hfp⟩ := hq
      by_cases hpk : p.1 = k
      · rw [if_pos (by simpa [beq_iff_eq] using hpk)] at hfp
        left
        rw [← hqt, ← hfp]
      · rw [if_neg (by simpa [beq_iff_eq] using hpk)] at hfp
        right
        exact ⟨p, hp, hfp ▸ hqt⟩
    · rintro (rfl | ⟨p, hp, hpt⟩)
      · refine ⟨(t, v), ?_, rfl⟩
        rw [List.mem_map]
        exact ⟨p0, hp0, by rw [if_pos (by simpa [beq_iff_eq] using hp0k)]⟩
      · by_cases hpk : p.1 = k
        · refine ⟨(k, v), ?_, ?_⟩
          · rw [List.mem_map]
            exact ⟨p, hp, by rw [if_pos (by simpa [beq_iff_eq] using hpk)]⟩
          · show k = t
            rw [← hpk, hpt]
        · refine ⟨p, ?_, hpt⟩
          rw [List.mem_map]
          exact ⟨p, hp, by rw [if_neg (by simpa [beq_iff_eq] using hpk)]⟩
  · rw [if_neg hEx]
    constructor
    · rintro ⟨q, hq, hqt⟩
      rcases List.mem_append.mp hq with hq | hq
      · exact Or.inr ⟨q, hq, hqt⟩
      · rw [List.mem_singleton] at hq
        subst hq
        exact Or.inl hqt.symm
    · rintro (rfl | ⟨p, hp, hpt⟩)
      · exact ⟨(t, v), List.mem_append_right _ (List.mem_singleton.mpr rfl), rfl⟩
      · exact ⟨p, List.mem_append_left _ hp, hpt⟩

/-- Membership after the insertion loop: the old cache keys plus the
timestamps of the inserted results. -/
lemma mapHas_insertResults (rs : List BatchResult) :
    ∀ (cache : List (Nat × String)) (t : Nat),
      mapHas (insertResults cache rs) t = true ↔
        (mapHas cache t = true ∨ ∃ r ∈ rs, r.timestamp = t) := by
  induction rs with
  | nil =>
    intro cache t
    simp [insertResults]
  | cons r rs ih =>
    intro cache t
    unfold insertResults
    rw [ih]
    rw [mapHas_mapSet_iff]
    constructor
    · rintro ((rfl | h) | ⟨r2, h2, h3⟩)
      · exact Or.inr ⟨r, List.mem_cons_self r rs, rfl⟩
      · exact Or.inl h
      · exact Or.inr ⟨r2, List.mem_cons_of_mem r h2, h3⟩
    · rintro (h | ⟨r2, h2, h3⟩)
      · exact Or.inl (Or.inr h)
      · rcases List.mem_cons.mp h2 with rfl | h2
        · exact Or.inl (Or.inl h3.symm)
        · exact Or.inr ⟨r2, h2, h3⟩

/-- C8.  A preload-cache hit is used directly and suppresses the live
per-cue request: when the dequeued cue's offset maps to a cached URL, the
player plays exactly that URL and issues no fetch; conversely the live
fetch is issued only when the offset is absent from the cache. -/
theorem claim_C8_cache_hit_avoids_fetch (cache : List (Nat × String))
    (cue : QueuedAudio) (liveUrl : String) :
    (∀ u, mapGet? cache cue.timestamp = some u →
      resolveAudioSource cache cue liveUrl = ⟨u, false⟩) ∧
    ((resolveAudioSource cache cue liveUrl).fetchIssued = true →
      mapHas cache cue.timestamp = false) := by
  unfold resolveAudioSource
  cases h : mapGet? cache cue.timestamp with
  | none =>
    refine ⟨?_, ?_⟩
    · intro u hu
      cases hu
    · intro _
      rw [mapHas_eq_isSome, h]
      rfl
  | some u0 =>
    refine ⟨?_, ?_⟩
    · intro u hu
      injection hu with hu
      subst hu
      rfl
    · intro hfalse
      cases hfalse

/-- Witness for C8: a concrete cache containing offset 5; the resolver
returns the cached URL without issuing a fetch. -/
theorem claim_C8_witness :
    resolveAudioSource [(5, "blob:x")] ⟨5, "t"⟩ ("live")
      = ⟨"blob:x", false⟩ :=
  (claim_C8_cache_hit_avoids_fetch [(5, "blob:x")] ⟨5, "t"⟩ ("live")).1
    ("blob:x") rfl

/-- C7.  With a fresh cache and preloading not yet started: a parsed batch
response leaves status `complete` whatever the per-cue outcomes, exactly
the successful entries' offsets end up in the cache, a top-level batch
failure yields status `error` with a surfaced message, and any cue absent
from the cache (in particular one whose entry failed) falls back to the
live per-cue fetch when the player reaches it. -/
theorem claim_C7_partial_batch_failures (segments : List TranscriptSegment)
    (st : PreloadState) (results : List BatchResult) (liveUrl : String)
    (hseg : segments.length ≠ 0) (hstatus : st.status = PreloadStatus.idle)
    (hcache : st.cache = []) :
    (preloadAllSegments segments st (BatchResponse.ok results)).status
      = PreloadStatus.complete ∧
    (∀ ts : Nat,
      mapHas (preloadAllSegments segments st (BatchResponse.ok results)).cache ts
          = true ↔
        ∃ r ∈ results, r.success = true ∧ r.timestamp = ts) ∧
    (preloadAllSegments segments st BatchResponse.fail).status
      = PreloadStatus.error ∧
    (preloadAllSegments segments st BatchResponse.fail).errorMsg
      = some ("Failed to preload audio segments") ∧
    (∀ cue : QueuedAudio,
      mapHas (preloadAllSegments segments st (BatchResponse.ok results)).cache
          cue.timestamp = false →
      (resolveAudioSource
          (preloadAllSegments segments st (BatchResponse.ok results)).cache
          cue liveUrl).fetchIssued = true) := by
  have hguard : ¬(segments.length = 0 ∨ st.status = PreloadStatus.loading ∨
      st.status = PreloadStatus.complete) := by
    rw [hstatus]
    rintro (h | h | h)
    · exact hseg h
    · cases h
    · cases h
  have hok : preloadAllSegments segments st (BatchResponse.ok results) =
      { st with status := PreloadStatus.complete
                progress := jsRound100
                  (insertResults st.cache (results.filter (fun r => r.success))).length
                  segments.length
                cache := insertResults st.cache (results.filter (fun r => r.success)) } := by
    unfold preloadAllSegments
    rw [if_neg hguard]
  have hfail : preloadAllSegments segments st BatchResponse.fail =
      { st with status := PreloadStatus.error, progress := 0
                errorMsg := some ("Failed to preload audio segments") } := by
    unfold preloadAllSegments
    rw [if_neg hguard]
  refine ⟨by rw [hok], ?_, by rw [hfail], by rw [hfail], ?_⟩
  · intro ts
    rw [hok]
    show mapHas (insertResults st.cache (results.filter (fun r => r.success))) ts
        = true ↔ _
    rw [mapHas_insertResults, hcache]
    constructor
    · rintro (h | ⟨r, hr, hts⟩)
      · cases h
      · rw [List.mem_filter] at hr
        exact ⟨r, hr.1, hr.2, hts⟩
    · rintro ⟨r, hr, hsucc, hts⟩
      exact Or.inr ⟨r, List.mem_filter.mpr ⟨hr, hsucc⟩, hts⟩
  · intro cue hmiss
    unfold resolveAudioSource
    rw [mapHas_eq_isSome] at hmiss
    cases hget : mapGet? (preloadAllSegments segments st (BatchResponse.ok results)).cache
        cue.timestamp with
    | none => rfl
    | some u =>
      rw [hget] at hmiss
      cases hmiss

/-- A concrete preload scenario for C7: two cues, the batch succeeds for
offset 5 and fails for offset 60. -/
def preloadInit : PreloadState :=
  { status := PreloadStatus.idle, progress := 0, cache := [], errorMsg := none }

/-- Witness for C7 at the concrete scenario: offset 5 is cached, offset 60
is not and falls back to the live fetch, and a failed batch sets the error
status. -/
theorem claim_C7_witness :
    (preloadAllSegments [⟨5, "x"⟩, ⟨60, "y"⟩] preloadInit
        (BatchResponse.ok [⟨5, "p", true⟩, ⟨60, "", false⟩])).status
      = PreloadStatus.complete ∧
    (∀ ts : Nat,
      mapHas (preloadAllSegments [⟨5, "x"⟩, ⟨60, "y"⟩] preloadInit
          (BatchResponse.ok [⟨5, "p", true⟩, ⟨60, "", false⟩])).cache ts = true ↔
        ∃ r ∈ [(⟨5, "p", true⟩ : BatchResult), ⟨60, "", false⟩],
          r.success = true ∧ r.timestamp = ts) ∧
    (preloadAllSegments [⟨5, "x"⟩, ⟨60, "y"⟩] preloadInit BatchResponse.fail).status
      = PreloadStatus.error ∧
    (preloadAllSegments [⟨5, "x"⟩, ⟨60, "y"⟩] preloadInit BatchResponse.fail).errorMsg
      = some ("Failed to preload audio segments") ∧
    (∀ cue : QueuedAudio,
      mapHas (preloadAllSegments [⟨5, "x"⟩, ⟨60, "y"⟩] preloadInit
          (BatchResponse.ok [⟨5, "p", true⟩, ⟨60, "", false⟩])).cache
          cue.timestamp = false →
      (resolveAudioSource
          (preloadAllSegments [⟨5, "x"⟩, ⟨60, "y"⟩] preloadInit
            (BatchResponse.ok [⟨5, "p", true⟩, ⟨60, "", false⟩])).cache
          cue ("live")).fetchIssued = true) :=
  claim_C7_partial_batch_failures [⟨5, "x"⟩, ⟨60, "y"⟩] preloadInit
    [⟨5, "p", true⟩, ⟨60, "", false⟩] ("live") (by decide) rfl rfl

/-! ## Duplicate timestamps (C10) -/

/-- Two segments with the same timestamp, as the parser happily
produces. -/
def segsDup : List TranscriptSegment := [⟨5, "a"⟩, ⟨5, "b"⟩]

/-- Every cue position of the playback pipeline holds the first
duplicate: the later segment with the same timestamp never enters it. -/
def OnlyFirstDup (s : SessState) : Prop :=
  (∀ x ∈ s.queue, x = (⟨5, "a"⟩ : QueuedAudio)) ∧
  (∀ x, s.pending = some x → x = (⟨5, "a"⟩ : QueuedAudio)) ∧
  (∀ x, s.current = some x → x = (⟨5, "a"⟩ : QueuedAudio))

/-- Due-detection on `segsDup` can only ever produce the first segment. -/
lemma getSegment_segsDup (t : Nat) :
    getSegmentForTime segsDup t = none ∨
    getSegmentForTime segsDup t = some ⟨5, "a"⟩ := by
  by_cases h : (5 : Nat) = t
  · subst h
    right
    rfl
  · left
    have hb : ((5 : Nat) == t) = false := by
      simpa [beq_iff_eq] using h
    unfold getSegmentForTime segsDup
    simp [List.find?, hb]

/-- The scheduler effect preserves `OnlyFirstDup` on `segsDup`. -/
lemma onlyFirstDup_check {s : SessState} (h : OnlyFirstDup s) :
    OnlyFirstDup (checkForNewSegment segsDup s) := by
  rcases check_cases segsDup s with heq | ⟨seg, hfind, _, heq⟩
  · rw [heq]; exact h
  · rw [heq]
    have hseg : seg = (⟨5, "a"⟩ : TranscriptSegment) := by
      rcases getSegment_segsDup s.time with hn | hs
      · exact absurd (hfind.symm.trans hn) (Option.some_ne_none seg)
      · exact Option.some.inj (hfind.symm.trans hs)
    refine ⟨?_, h.2.1, h.2.2⟩
    intro x hx
    rcases List.mem_append.mp hx with hx | hx
    · exact h.1 x hx
    · rw [List.mem_singleton] at hx
      subst hx
      rw [hseg]

/-- Every event-loop step preserves `OnlyFirstDup` on `segsDup`. -/
lemma onlyFirstDup_step {duration : Nat} {s s2 : SessState}
    (hstep : Step segsDup duration s s2) (h : OnlyFirstDup s) :
    OnlyFirstDup s2 := by
  cases hstep with
  | tick =>
    unfold tickApply
    by_cases hc : s.running = true ∧ s.time + 1 ≤ duration
    · rw [if_pos hc]
      exact onlyFirstDup_check ⟨h.1, h.2.1, h.2.2⟩
    · rw [if_neg hc]; exact h
  | drain =>
    unfold startPlayback
    cases hq : s.queue with
    | nil => exact h
    | cons c rest =>
      dsimp only
      by_cases hcond : s.playingAudio = false ∧ s.loading = false ∧ s.running = true
      · rw [if_pos hcond]
        by_cases hmem : c.timestamp ∈ s.processing
        · rw [if_pos hmem]
          have hc2 : c = (⟨5, "a"⟩ : QueuedAudio) :=
            h.1 c (hq ▸ List.mem_cons_self c rest)
          refine ⟨?_, ?_, h.2.2⟩
          · intro x hx
            exact h.1 x (hq ▸ List.mem_cons_of_mem c hx)
          · intro x hx
            injection hx with hx
            exact hx ▸ hc2
        · rw [if_neg hmem]; exact h
      · rw [if_neg hcond]; exact h
  | fetchOk =>
    unfold fetchOkApply
    cases hp : s.pending with
    | none => exact h
    | some c =>
      dsimp only
      refine ⟨h.1, ?_, ?_⟩
      · intro x hx
        cases hx
      · intro x hx
        injection hx with hx
        exact hx ▸ h.2.1 c hp
  | fetchErr =>
    unfold fetchErrApply
    cases hp : s.pending with
    | none => exact h
    | some c =>
      dsimp only
      exact ⟨h.1, fun x hx => (by cases hx), h.2.2⟩
  | playRej =>
    unfold playRejApply
    cases hp : s.pending with
    | none => exact h
    | some c =>
      dsimp only
      exact ⟨h.1, fun x hx => (by cases hx), fun x hx => (by cases hx)⟩
  | ended =>
    unfold endedApply
    cases hc : s.current with
    | none => exact h
    | some c =>
      dsimp only
      by_cases hh : s.audioHalted = true
      · rw [if_pos hh]; exact h
      · rw [if_neg hh]
        exact ⟨h.1, h.2.1, fun x hx => (by cases hx)⟩
  | playErr =>
    unfold playErrApply
    cases hc : s.current with
    | none => exact h
    | some c =>
      dsimp only
      exact ⟨h.1, h.2.1, fun x hx => (by cases hx)⟩
  | pause => exact h
  | resume =>
    unfold resumeApply
    by_cases hr : s.running = true
    · rw [if_pos hr]; exact h
    · rw [if_neg hr]
      exact onlyFirstDup_check ⟨h.1, h.2.1, h.2.2⟩

/-- C10.  With two segments sharing timestamp 5, in every reachable state
the later duplicate never occupies the queue, the in-flight slot or the
audio element (due detection is first-match, and dispatch is keyed by
timestamp alone); first-match selection and the parser's acceptance of
duplicate timestamps are recorded alongside. -/
theorem claim_C10_duplicate_timestamps (duration : Nat) (s : SessState)
    (h : Reachable segsDup duration s) :
    ((⟨5, "b"⟩ : QueuedAudio) ∉ s.queue ∧
      s.pending ≠ some ⟨5, "b"⟩ ∧ s.current ≠ some ⟨5, "b"⟩) ∧
    getSegmentForTime segsDup 5 = some ⟨5, "a"⟩ ∧
    parseTranscript ("00:05 a\n00:05 b") = Except.ok [⟨5, "a"⟩, ⟨5, "b"⟩] := by
  have hfd : OnlyFirstDup s := by
    induction h with
    | refl =>
      exact ⟨fun x hx => (by cases hx), fun x hx => (by cases hx),
        fun x hx => (by cases hx)⟩
    | tail _ hstep ih => exact onlyFirstDup_step hstep ih
  refine ⟨⟨?_, ?_, ?_⟩, rfl, rfl⟩
  · intro hm
    exact absurd (hfd.1 _ hm) (by decide)
  · intro hm
    exact absurd (hfd.2.1 _ hm) (by decide)
  · intro hm
    exact absurd (hfd.2.2 _ hm) (by decide)

/-- The state on `segsDup` after starting the session and ticking to
second 5: the first duplicate has been claimed and queued. -/
def sC10 : SessState :=
  tickApply segsDup 100 (tickApply segsDup 100 (tickApply segsDup 100
    (tickApply segsDup 100 (tickApply segsDup 100 (resumeApply segsDup initState)))))

/-- Witness for C10 at the end of a concrete six-step run that claims the
first duplicate. -/
theorem claim_C10_witness :
    ((⟨5, "b"⟩ : QueuedAudio) ∉ sC10.queue ∧
      sC10.pending ≠ some ⟨5, "b"⟩ ∧ sC10.current ≠ some ⟨5, "b"⟩) ∧
    getSegmentForTime segsDup 5 = some ⟨5, "a"⟩ ∧
    parseTranscript ("00:05 a\n00:05 b") = Except.ok [⟨5, "a"⟩, ⟨5, "b"⟩] :=
  claim_C10_duplicate_timestamps 100 sC10
    (Relation.ReflTransGen.head (Step.resume initState)
      (Relation.ReflTransGen.head (Step.tick _)
        (Relation.ReflTransGen.head (Step.tick _)
          (Relation.ReflTransGen.head (Step.tick _)
            (Relation.ReflTransGen.head (Step.tick _)
              (Relation.ReflTransGen.head (Step.tick _)
                Relation.ReflTransGen.refl))))))

end Meditation
